import Mathlib

/-!
Shallow embedding of `libs/collab-stream/src/model.rs` (AppFlowy-Cloud):
the Redis stream message model — `MessageId`, the nested redis-value
decoders, `StreamMessage`, `StreamMessageByStreamKey`, `CollabStreamUpdate`,
`collab_origin_from_str`, `UpdateFlags`, and the dual-format
`CollabUpdateEvent` codec (protobuf primary, bincode legacy fallback).

Bytes are modelled as `List Nat` (each element a `u8` value).
-/

deriving instance DecidableEq for Except

namespace CollabStream

/-- A byte buffer (`Vec<u8>` / `&[u8]` / `Bytes`), each element a u8 value. -/
abbrev Bytes := List Nat

/-! ### Decimal formatting (Rust `Display` for unsigned integers) -/

/-- The ASCII character of a decimal digit. -/
def digitToChar (d : Nat) : Char := Char.ofNat (48 + d)

/-- Decimal digits of `n`, most significant first (fueled; fuel `n+1` suffices). -/
def natToCharsAux : Nat → Nat → List Char
  | 0, _ => []
  | fuel+1, n =>
    if n < 10 then [digitToChar n]
    else natToCharsAux fuel (n / 10) ++ [digitToChar (n % 10)]

/-- Rust `{}` formatting of an unsigned integer: standard decimal, no sign. -/
def natToChars (n : Nat) : List Char := natToCharsAux (n + 1) n

/-- Rust `{}` formatting of an unsigned integer, as a `String`. -/
def natRepr (n : Nat) : String := ⟨natToChars n⟩

/-! ### Integer parsing (Rust `from_str` for `u64`, `u16`, `u8`, `i64`) -/

/-- Numeric value of an ASCII decimal digit character, if it is one. -/
def charDigit (c : Char) : Option Nat :=
  if 48 ≤ c.toNat ∧ c.toNat ≤ 57 then some (c.toNat - 48) else none

/-- Rust `from_str_radix` digit loop for an unsigned type with exclusive bound
`maxE`: per character, first an invalid-digit check, then a checked
multiply/add overflow check. Error strings are the Rust `ParseIntError`
descriptions. -/
def parsePosLoop (maxE : Nat) : Nat → List Char → Except String Nat
  | acc, [] => .ok acc
  | acc, c :: cs =>
    match charDigit c with
    | none => .error "invalid digit found in string"
    | some d =>
      if acc * 10 + d < maxE then parsePosLoop maxE (acc * 10 + d) cs
      else .error "number too large to fit in target type"

/-- Rust `from_str_radix` digit loop on the negative side of a signed type:
magnitudes up to `2^63` are representable as `i64` negatives. -/
def parseNegLoop : Nat → List Char → Except String Int
  | acc, [] => .ok (-(acc : Int))
  | acc, c :: cs =>
    match charDigit c with
    | none => .error "invalid digit found in string"
    | some d =>
      if acc * 10 + d ≤ 2 ^ 63 then parseNegLoop (acc * 10 + d) cs
      else .error "number too small to fit in target type"

/-- Rust `u64::from_str` / `u16::from_str` / `u8::from_str` (by `maxE`):
empty input errors; one leading `+` is allowed; a leading `-` falls through
to the digit loop and reports an invalid digit (unsigned types). -/
def parseUnsigned (maxE : Nat) : List Char → Except String Nat
  | [] => .error "cannot parse integer from empty string"
  | c :: rest =>
    if c = '+' then
      match rest with
      | [] => .error "invalid digit found in string"
      | _ => parsePosLoop maxE 0 rest
    else parsePosLoop maxE 0 (c :: rest)

/-- Rust `i64::from_str`: optional sign, then the digit loop on the chosen
side; positive values are bounded by `2^63 - 1`, negative magnitudes by `2^63`. -/
def parseI64 : List Char → Except String Int
  | [] => .error "cannot parse integer from empty string"
  | c :: rest =>
    if c = '+' then
      match rest with
      | [] => .error "invalid digit found in string"
      | _ => (parsePosLoop (2 ^ 63) 0 rest).map (fun n => (n : Int))
    else if c = '-' then
      match rest with
      | [] => .error "invalid digit found in string"
      | _ => parseNegLoop 0 rest
    else (parsePosLoop (2 ^ 63) 0 (c :: rest)).map (fun n => (n : Int))

/-! ### Errors

`StreamError` lives in `libs/collab-stream/src/error.rs`, which is not part
of the sources here. Modelled from the spec: section 7 names the error kinds
`InvalidFormat`, `NumericParseError`, `Utf8Error`, `UnexpectedValue`, and the
legacy (bincode) serialization error; the redis-level errors it wraps carry
an error kind plus a description and optional detail string. -/

/-- Modelled from the spec: the redis error kinds this module constructs
(`redis::ErrorKind`): shape mismatches are `TypeError`, crate-internal
errors (the `internal` helper of `error.rs`) are `ClientError`. -/
inductive RedisErrorKind where
  | typeError
  | clientError
deriving DecidableEq

/-- Modelled from the redis crate: `RedisError` as constructed by this module
via `RedisError::from((kind, desc, detail))`. -/
structure RedisError where
  kind : RedisErrorKind
  desc : String
  detail : Option String
deriving DecidableEq

/-- Modelled from the spec: the `internal` helper of `error.rs` wraps a
message into a crate-internal `RedisError`. -/
def internalErr (msg : String) : RedisError := ⟨.clientError, msg, none⟩

/-- Modelled from the redis crate: the error produced when bytes that should
be UTF-8 text are not (`From<Utf8Error> for RedisError`). -/
def utf8RedisErr : RedisError := ⟨.typeError, "Invalid UTF-8", none⟩

/-- Modelled from the redis crate: the generic incompatible-response-type
error of `FromRedisValue` implementations. -/
def typeMismatchErr (msg : String) : RedisError := ⟨.typeError, msg, none⟩

/-- Modelled from the spec: `StreamError` of `error.rs` (section 7 of the
spec), restricted to the variants this module constructs or propagates:
`InvalidFormat`, the numeric-parse error, the UTF-8 error, `UnexpectedValue`,
the legacy bincode deserialization error, and wrapped redis errors. -/
inductive StreamError where
  | invalidFormat
  | numericParse (msg : String)
  | utf8
  | unexpectedValue (s : String)
  | binCodeSerde (msg : String)
  | redisErr (e : RedisError)
deriving DecidableEq

/-! ### `MessageId` -/

/-- `MessageId { timestamp_ms: u64, sequence_number: u16 }`. -/
structure MessageId where
  timestamp_ms : Nat
  sequence_number : Nat
deriving DecidableEq

/-- `Display for MessageId`: `"{timestamp_ms}-{sequence_number}"`. -/
def messageIdToChars (m : MessageId) : List Char :=
  natToChars m.timestamp_ms ++ '-' :: natToChars m.sequence_number

/-- `Display for MessageId`, as a `String`. -/
def messageIdToString (m : MessageId) : String := ⟨messageIdToChars m⟩

/-- Split at the first occurrence of `sep`, like Rust `s.splitn(2, sep)`
yielding two parts; `none` when `sep` does not occur (one part). -/
def splitFirstAux (sep : Char) : List Char → List Char → Option (List Char × List Char)
  | _, [] => none
  | acc, c :: cs =>
    if c = sep then some (acc.reverse, cs) else splitFirstAux sep (c :: acc) cs

/-- Split at the first occurrence of `sep` (see `splitFirstAux`). -/
def splitFirst (sep : Char) (s : List Char) : Option (List Char × List Char) :=
  splitFirstAux sep [] s

/-- `TryFrom<&str> for MessageId`: `splitn(2, '-')` must yield two parts
(else `InvalidFormat`), then `u64::from_str` and `u16::from_str`. -/
def messageIdFromChars (s : List Char) : Except StreamError MessageId :=
  match splitFirst '-' s with
  | none => .error .invalidFormat
  | some (p0, p1) =>
    match parseUnsigned (2 ^ 64) p0 with
    | .error e => .error (.numericParse e)
    | .ok t =>
      match parseUnsigned (2 ^ 16) p1 with
      | .error e => .error (.numericParse e)
      | .ok q => .ok ⟨t, q⟩

/-- `TryFrom<&str> for MessageId` on a `String`. -/
def messageIdFromStr (s : String) : Except StreamError MessageId :=
  messageIdFromChars s.data

/-! ### UTF-8 decoding (Rust `std::str::from_utf8` / `String::from_utf8`) -/

/-- Is a UTF-8 continuation byte (`0x80..=0xBF`). -/
def isCont (b : Nat) : Bool := 0x80 ≤ b ∧ b ≤ 0xBF

/-- Strict UTF-8 decoding of a byte list into characters (fueled; fuel
`bs.length` suffices since every step consumes at least one byte). Rejects
overlong forms, surrogates and out-of-range code points, as Rust does. -/
def utf8DecodeAux : Nat → List Nat → Option (List Char)
  | _, [] => some []
  | 0, _ :: _ => none
  | fuel+1, b :: rest =>
    if b < 0x80 then (utf8DecodeAux fuel rest).map (fun cs => Char.ofNat b :: cs)
    else if 0xC2 ≤ b ∧ b ≤ 0xDF then
      match rest with
      | c1 :: rest2 =>
        if isCont c1 then
          (utf8DecodeAux fuel rest2).map
            (fun cs => Char.ofNat ((b - 0xC0) * 64 + (c1 - 0x80)) :: cs)
        else none
      | [] => none
    else if 0xE0 ≤ b ∧ b ≤ 0xEF then
      match rest with
      | c1 :: c2 :: rest2 =>
        let lo1 := if b = 0xE0 then 0xA0 else 0x80
        let hi1 := if b = 0xED then 0x9F else 0xBF
        if (lo1 ≤ c1 ∧ c1 ≤ hi1) ∧ isCont c2 then
          (utf8DecodeAux fuel rest2).map
            (fun cs => Char.ofNat ((b - 0xE0) * 4096 + (c1 - 0x80) * 64 + (c2 - 0x80)) :: cs)
        else none
      | _ => none
    else if 0xF0 ≤ b ∧ b ≤ 0xF4 then
      match rest with
      | c1 :: c2 :: c3 :: rest2 =>
        let lo1 := if b = 0xF0 then 0x90 else 0x80
        let hi1 := if b = 0xF4 then 0x8F else 0xBF
        if (lo1 ≤ c1 ∧ c1 ≤ hi1) ∧ isCont c2 ∧ isCont c3 then
          (utf8DecodeAux fuel rest2).map
            (fun cs =>
              Char.ofNat ((b - 0xF0) * 262144 + (c1 - 0x80) * 4096 +
                (c2 - 0x80) * 64 + (c3 - 0x80)) :: cs)
        else none
      | _ => none
    else none

/-- Strict UTF-8 decoding of a byte list (see `utf8DecodeAux`). -/
def utf8Decode (bs : Bytes) : Option (List Char) := utf8DecodeAux bs.length bs

/-! ### The redis reply value and its decoders -/

/-- Modelled from the redis crate: `redis::Value`, the reply value tree. -/
inductive RValue where
  | nil
  | int (i : Int)
  | data (bytes : Bytes)
  | bulk (items : List RValue)
  | status (s : String)
  | okay

/-- Rust `{:?}` rendering of a byte vector, e.g. `[1, 2, 3]`. -/
def debugBytes (bs : Bytes) : String :=
  "[" ++ String.intercalate ", " (bs.map natRepr) ++ "]"

/-- `bulk_from_redis_value`: expects `Value::Bulk`. -/
def bulkFromRedisValue : RValue → Except RedisError (List RValue)
  | .bulk b => .ok b
  | _ => .error (internalErr "expecting Value::Bulk")

/-- Modelled from the redis crate: `FromRedisValue for String` (`Data` bytes
as UTF-8, `Okay` as `"OK"`, `Status` as its text; anything else is a type
mismatch). -/
def stringFromRedisValue : RValue → Except RedisError String
  | .data bytes =>
    match utf8Decode bytes with
    | some cs => .ok ⟨cs⟩
    | none => .error utf8RedisErr
  | .okay => .ok "OK"
  | .status s => .ok s
  | _ => .error (typeMismatchErr "Response type not string compatible.")

/-- `RedisString::from_redis_value`: only `Value::Data`, decoded as UTF-8. -/
def redisStringFromRedisValue : RValue → Except RedisError String
  | .data bytes =>
    match utf8Decode bytes with
    | some cs => .ok ⟨cs⟩
    | none => .error utf8RedisErr
  | _ => .error (internalErr "expecting Value::Data")

/-- Modelled from the redis crate: `FromRedisValue for u8` (an `Int` in u8
range, or text parsed as a decimal u8; anything else is not convertible). -/
def u8FromRedisValueE : RValue → Except RedisError Nat
  | .int i => if 0 ≤ i ∧ i ≤ 255 then .ok i.toNat
      else .error (typeMismatchErr "Response type not convertible to numeric.")
  | .data bytes =>
    match utf8Decode bytes with
    | some cs =>
      match parseUnsigned 256 cs with
      | .ok v => .ok v
      | .error _ => .error (typeMismatchErr "Could not convert from string.")
    | none => .error utf8RedisErr
  | .status s =>
    match parseUnsigned 256 s.data with
    | .ok v => .ok v
    | .error _ => .error (typeMismatchErr "Could not convert from string.")
  | _ => .error (typeMismatchErr "Response type not convertible to numeric.")

/-- Modelled from the redis crate: `FromRedisValue for Vec<u8>` (`Data` is
the raw bytes, `Bulk` converts each item, `Nil` is empty). -/
def vecU8FromRedisValue : RValue → Except RedisError Bytes
  | .data bytes => .ok bytes
  | .bulk items => items.mapM u8FromRedisValueE
  | .nil => .ok []
  | _ => .error (typeMismatchErr "Response type not vec compatible.")

/-- `TryFrom<&[u8]> for MessageId`: UTF-8 decode, then the string parser. -/
def messageIdFromBytes (bs : Bytes) : Except StreamError MessageId :=
  match utf8Decode bs with
  | none => .error .utf8
  | some cs => messageIdFromChars cs

/-- `FromRedisValue for MessageId`: only `Value::Data`; a parse failure is
reported as a `TypeError` with the debug rendering of the bytes. -/
def messageIdFromRedisValue : RValue → Except RedisError MessageId
  | .data bytes =>
    match messageIdFromBytes bytes with
    | .ok m => .ok m
    | .error _ => .error ⟨.typeError, "invalid stream key", some (debugBytes bytes)⟩
  | _ => .error (internalErr "expecting Value::Data")

/-! ### `StreamMessage` -/

/-- `StreamMessage { data: Bytes, id: MessageId }`. -/
structure StreamMessage where
  data : Bytes
  id : MessageId
deriving DecidableEq

/-- `verify_field`: the field value must decode as a string equal to
`expected`, else a `TypeError` naming both strings. -/
def verifyField (field : RValue) (expected : String) : Except RedisError Unit :=
  match stringFromRedisValue field with
  | .error e => .error e
  | .ok fieldStr =>
    if fieldStr ≠ expected then
      .error ⟨.typeError, "Invalid field",
        some ("Expected \x27" ++ expected ++ "\x27, found \x27" ++ fieldStr ++ "\x27")⟩
    else .ok ()

/-- `FromRedisValue for StreamMessage`: a 2-element bulk `[id, fields]`;
`fields` is a 2-element bulk `[name, value]` whose name must be `"data"`. -/
def streamMessageFromRedisValue (v : RValue) : Except RedisError StreamMessage :=
  match bulkFromRedisValue v with
  | .error e => .error e
  | .ok bulk =>
    match bulk with
    | [b0, b1] =>
      match messageIdFromRedisValue b0 with
      | .error e => .error e
      | .ok id =>
        match bulkFromRedisValue b1 with
        | .error e => .error e
        | .ok fields =>
          match fields with
          | [f0, f1] =>
            match verifyField f0 "data" with
            | .error e => .error e
            | .ok _ =>
              match vecU8FromRedisValue f1 with
              | .error e => .error e
              | .ok raw => .ok ⟨raw, id⟩
          | _ =>
            .error ⟨.typeError, "Invalid length",
              some ("Expected length of 2 for the bulk value, but got " ++
                natRepr fields.length)⟩
    | _ =>
      .error ⟨.typeError, "Invalid length",
        some ("Expected length of 2 for the outer bulk value, but got:" ++
          natRepr bulk.length)⟩

/-! ### `StreamMessageByStreamKey` (a `BTreeMap<String, Vec<StreamMessage>>`) -/

/-- The `BTreeMap<String, Vec<StreamMessage>>`, modelled as an association
list with unique keys. The map's sorted iteration order is not modelled:
every theorem observes the map only through `bmapGet` lookups. -/
abbrev BMap := List (String × List StreamMessage)

/-- `map.entry(k).or_default().push(v)`: append `v` to the entry of `k`,
creating the entry when the key is absent. -/
def mapInsertPush (k : String) (v : StreamMessage) : BMap → BMap
  | [] => [(k, [v])]
  | (k2, vs) :: rest =>
    if k2 = k then (k2, vs ++ [v]) :: rest
    else (k2, vs) :: mapInsertPush k v rest

/-- `map[k]`, with `[]` for an absent key. -/
def bmapGet (k : String) : BMap → List StreamMessage
  | [] => []
  | p :: rest => if p.1 = k then p.2 else bmapGet k rest

/-- The inner loop of `StreamMessageByStreamKey::from_redis_value`: decode
each entry of one pair and push it under `key`; any entry error aborts. -/
def decodeEntriesInto (key : String) : List RValue → BMap → Except RedisError BMap
  | [], m => .ok m
  | v :: vs, m =>
    match streamMessageFromRedisValue v with
    | .error e => .error e
    | .ok msg => decodeEntriesInto key vs (mapInsertPush key msg m)

/-- The outer loop of `StreamMessageByStreamKey::from_redis_value`: each
element is a 2-element bulk `[key, entries]`; the key decodes as a
`RedisString`, the entries via the entry decoder. -/
def decodePairsInto : List RValue → BMap → Except RedisError BMap
  | [], m => .ok m
  | v :: vs, m =>
    match bulkFromRedisValue v with
    | .error e => .error e
    | .ok kv =>
      match kv with
      | [k0, v1] =>
        match redisStringFromRedisValue k0 with
        | .error e => .error e
        | .ok key =>
          match bulkFromRedisValue v1 with
          | .error e => .error e
          | .ok entries =>
            match decodeEntriesInto key entries m with
            | .error e => .error e
            | .ok m2 => decodePairsInto vs m2
      | _ =>
        .error ⟨.typeError, "Invalid length",
          some "Expected length of 2 for the outer bulk value"⟩

/-- `FromRedisValue for StreamMessageByStreamKey`: `Nil` is the empty map;
otherwise the outer value must be a bulk of `(key, entries)` pairs. -/
def streamMessageByStreamKeyFromRedisValue (v : RValue) : Except RedisError BMap :=
  match v with
  | .nil => .ok []
  | _ =>
    match bulkFromRedisValue v with
    | .error e => .error e
    | .ok outer => decodePairsInto outer []

/-! ### Sender identity (`CollabOrigin` and `collab_origin_from_str`) -/

/-- Modelled from the collab crate: `CollabClient { uid: i64, device_id: String }`. -/
structure CollabClient where
  uid : Int
  device_id : String
deriving DecidableEq

/-- Modelled from the collab crate: `CollabOrigin` — `Empty` (anonymous),
`Server`, or an addressed `Client`. -/
inductive CollabOrigin where
  | empty
  | server
  | client (c : CollabClient)
deriving DecidableEq

/-- The characters of the `uid:` marker. -/
def uidTag : List Char := "uid:".data

/-- The characters of the `device_id:` marker. -/
def devTag : List Char := "device_id:".data

/-- Rust `trim_start_matches(p)`: repeatedly strip the prefix `p` (fueled;
fuel `s.length + 1` suffices for nonempty `p`). -/
def trimAll (p : List Char) : Nat → List Char → List Char
  | 0, s => s
  | fuel+1, s => if p.isPrefixOf s then trimAll p fuel (s.drop p.length) else s

/-- Rust `str::split(sep)`: the full token list (`""` yields one empty token). -/
def splitChar (sep : Char) : List Char → List (List Char)
  | [] => [[]]
  | c :: cs =>
    if c = sep then [] :: splitChar sep cs
    else
      match splitChar sep cs with
      | [] => [[c]]
      | t :: ts => (c :: t) :: ts

/-- The guarded match arm of `collab_origin_from_str`: strip the (repeated)
`uid:` and `device_id:` markers, parse the uid as an `i64`. -/
def mkClient (uidTok devTok : List Char) : Except RedisError CollabOrigin :=
  let uidStr := trimAll uidTag (uidTok.length + 1) uidTok
  let devId := trimAll devTag (devTok.length + 1) devTok
  match parseI64 uidStr with
  | .ok uid => .ok (.client ⟨uid, ⟨devId⟩⟩)
  | .error e => .error (internalErr ("failed to parse uid: " ++ e))

/-- The `match (split.next(), split.next())` of `collab_origin_from_str`:
the first two `|`-separated tokens must carry the `uid:` and `device_id:`
markers (in either order, as in the Rust or-pattern: the
`(uid, device_id)` binding is tried first, then the swapped one). -/
def originFromTokens (value : String) : List (List Char) → Except RedisError CollabOrigin
  | a :: b :: _ =>
    if uidTag.isPrefixOf a && devTag.isPrefixOf b then mkClient a b
    else if uidTag.isPrefixOf b && devTag.isPrefixOf a then mkClient b a
    else
      .error (internalErr
        ("couldn\x27t parse collab origin from \x60" ++ value ++ "\x60"))
  | _ =>
    .error (internalErr
      ("couldn\x27t parse collab origin from \x60" ++ value ++ "\x60"))

/-- `collab_origin_from_str`: `""` is `Empty`, `"server"` is `Server`;
otherwise the token rule of `originFromTokens`. -/
def collabOriginFromStr (value : String) : Except RedisError CollabOrigin :=
  if value = "" then .ok .empty
  else if value = "server" then .ok .server
  else originFromTokens value (splitChar '|' value.data)

/-! ### `UpdateFlags` and `CollabStreamUpdate` -/

/-- `UpdateFlags`, a transparent u8 bitfield. -/
structure UpdateFlags where
  raw : Nat
deriving DecidableEq

/-- Bit 0: encoded with `EncoderV2` when set. -/
def UpdateFlags.isV2Encoded (f : UpdateFlags) : Bool := f.raw % 2 = 1

/-- `is_v1_encoded = !is_v2_encoded`. -/
def UpdateFlags.isV1Encoded (f : UpdateFlags) : Bool := !f.isV2Encoded

/-- Bit 1: payload is zstd-compressed when set. -/
def UpdateFlags.isCompressed (f : UpdateFlags) : Bool := f.raw / 2 % 2 = 1

/-- `CollabStreamUpdate { data, sender, flags }`. -/
structure CollabStreamUpdate where
  data : Bytes
  sender : CollabOrigin
  flags : UpdateFlags
deriving DecidableEq

/-- The `HashMap<String, redis::Value>` of stream entry fields, as an
association list with distinct keys; `fieldGet` is `HashMap::get`. -/
abbrev FieldMap := List (String × RValue)

/-- `HashMap::get`. -/
def fieldGet (fields : FieldMap) (k : String) : Option RValue :=
  (fields.find? (fun p => p.1 = k)).map (fun p => p.2)

/-- The `sender` binding of the `TryFrom` impls: absent means `Empty`,
otherwise the value must decode as a string and then as a sender identity. -/
def senderFromFields (fields : FieldMap) : Except StreamError CollabOrigin :=
  match fieldGet fields "sender" with
  | none => .ok .empty
  | some senderV =>
    match stringFromRedisValue senderV with
    | .error e => .error (.redisErr e)
    | .ok rawOrigin =>
      match collabOriginFromStr rawOrigin with
      | .error e => .error (.redisErr e)
      | .ok o => .ok o

/-- The `flags` binding of `TryFrom for CollabStreamUpdate`: absent means
`0`, an unreadable value is also taken as `0` (`unwrap_or(0)`). -/
def flagsFromFields (fields : FieldMap) : UpdateFlags :=
  match fieldGet fields "flags" with
  | none => ⟨0⟩
  | some fv => ⟨(u8FromRedisValueE fv).toOption.getD 0⟩

/-- `TryFrom<HashMap<String, redis::Value>> for CollabStreamUpdate`:
`sender` via `senderFromFields`, `flags` via `flagsFromFields`; `data` is
required and must convert to bytes. -/
def collabStreamUpdateTryFrom (fields : FieldMap) : Except StreamError CollabStreamUpdate :=
  match senderFromFields fields with
  | .error e => .error e
  | .ok sender =>
    match fieldGet fields "data" with
    | none => .error (StreamError.redisErr (internalErr "expecting field \x60data\x60"))
    | some dataV =>
      match vecU8FromRedisValue dataV with
      | .error e => .error (StreamError.redisErr e)
      | .ok data => .ok ⟨data, sender, flagsFromFields fields⟩

/-! ### The `CollabUpdateEvent` codec

The primary wire format is the protobuf message
`collab_entity::proto::collab::CollabUpdateEvent`. Modelled from the spec:
that schema (defined in the external `collab_entity` crate) is a message
with a single oneof field `update` whose only variant `update_v1` is a
`bytes` field with field number 1. The legacy fallback is bincode v1 with
its default options (fixed-width little-endian integers, trailing bytes
allowed). -/

/-- `CollabUpdateEvent`, the logical event: one encoded document delta. -/
inductive CollabUpdateEvent where
  | updateV1 (encode_update : Bytes)
deriving DecidableEq

/-- The decoded protobuf message: `update = None` or `Some(UpdateV1(bytes))`. -/
structure ProtoCollabUpdateEvent where
  update : Option Bytes
deriving DecidableEq

/-- LEB128 varint encoding of a natural number (protobuf base-128), fueled;
fuel `n+1` suffices. -/
def encodeVarintAux : Nat → Nat → Bytes
  | 0, _ => []
  | fuel+1, n =>
    if n < 128 then [n] else (n % 128 + 128) :: encodeVarintAux fuel (n / 128)

/-- LEB128 varint encoding of a natural number (protobuf base-128). -/
def encodeVarint (n : Nat) : Bytes := encodeVarintAux (n + 1) n

/-- Varint decoding, reading at most `fuel` bytes, accumulating from `shift`. -/
def decodeVarintAux : Nat → Nat → Nat → Bytes → Option (Nat × Bytes)
  | 0, _, _, _ => none
  | _+1, _, _, [] => none
  | fuel+1, acc, shift, b :: rest =>
    let acc2 := acc + b % 128 * 2 ^ shift
    if b < 128 then some (acc2, rest)
    else decodeVarintAux fuel acc2 (shift + 7) rest

/-- Modelled from the prost crate: varint decoding — at most 10 bytes and
the value must fit in a u64. -/
def decodeVarint (bs : Bytes) : Option (Nat × Bytes) :=
  match decodeVarintAux 10 0 0 bs with
  | some (v, rest) => if v < 2 ^ 64 then some (v, rest) else none
  | none => none

mutual

/-- Modelled from the prost crate: skip one unknown-field value of the given
wire type, returning the remaining bytes (`none` is a decode error). Wire
type 3 starts a group, skipped by `protoSkipGroup`. -/
def protoSkip : Nat → Nat → Nat → Bytes → Option Bytes
  | 0, _, _, _ => none
  | fuel+1, fieldNum, wire, bs =>
    if wire = 0 then (decodeVarint bs).map (fun r => r.2)
    else if wire = 1 then (if 8 ≤ bs.length then some (bs.drop 8) else none)
    else if wire = 2 then
      match decodeVarint bs with
      | some (len, rest) => if len ≤ rest.length then some (rest.drop len) else none
      | none => none
    else if wire = 5 then (if 4 ≤ bs.length then some (bs.drop 4) else none)
    else if wire = 3 then protoSkipGroup fuel fieldNum bs
    else none

/-- Modelled from the prost crate: skip the body of a group opened for field
`fieldNum`, up to its matching end-group key. -/
def protoSkipGroup : Nat → Nat → Bytes → Option Bytes
  | 0, _, _ => none
  | fuel+1, fieldNum, bs =>
    match decodeVarint bs with
    | none => none
    | some (key, rest) =>
      if key < 2 ^ 32 ∧ 0 < key / 8 then
        if key % 8 = 4 then (if key / 8 = fieldNum then some rest else none)
        else
          match protoSkip fuel (key / 8) (key % 8) rest with
          | some rest2 => protoSkipGroup fuel fieldNum rest2
          | none => none
      else none

end

/-- Modelled from the prost crate: the decode loop of the generated message.
Each key is a varint `field*8 + wire` (field 0 is invalid); field 1 must be
length-delimited and sets the oneof (last occurrence wins); other fields are
skipped by wire type. -/
def protoDecodeLoop : Nat → ProtoCollabUpdateEvent → Bytes → Option ProtoCollabUpdateEvent
  | 0, _, _ => none
  | _+1, st, [] => some st
  | fuel+1, st, b :: bs =>
    match decodeVarint (b :: bs) with
    | none => none
    | some (key, rest) =>
      if key < 2 ^ 32 ∧ 0 < key / 8 then
        if key / 8 = 1 then
          if key % 8 = 2 then
            match decodeVarint rest with
            | some (len, rest2) =>
              if len ≤ rest2.length then
                protoDecodeLoop fuel ⟨some (rest2.take len)⟩ (rest2.drop len)
              else none
            | none => none
          else none
        else
          match protoSkip (2 * rest.length + 2) (key / 8) (key % 8) rest with
          | some rest2 => protoDecodeLoop fuel st rest2
          | none => none
      else none

/-- `prost::Message::decode` for the proto `CollabUpdateEvent` message
(`none` is a prost decode error). -/
def protoDecode (bs : Bytes) : Option ProtoCollabUpdateEvent :=
  protoDecodeLoop (bs.length + 1) ⟨none⟩ bs

/-- `CollabUpdateEvent::to_proto`. -/
def CollabUpdateEvent.toProto : CollabUpdateEvent → ProtoCollabUpdateEvent
  | .updateV1 u => ⟨some u⟩

/-- `CollabUpdateEvent::from_proto`: an unset oneof is an
`UnexpectedValue` error. -/
def CollabUpdateEvent.fromProto (p : ProtoCollabUpdateEvent) : Except StreamError CollabUpdateEvent :=
  match p.update with
  | none => .error (.unexpectedValue "update not set for CollabUpdateEvent proto")
  | some u => .ok (.updateV1 u)

/-- Modelled from the prost crate: `encode_to_vec` of the proto message —
nothing for an unset oneof; key `0x0A` (field 1, wire type 2), a varint
length and the raw bytes for `UpdateV1`. -/
def protoEncode (p : ProtoCollabUpdateEvent) : Bytes :=
  match p.update with
  | none => []
  | some u => 10 :: (encodeVarint u.length ++ u)

/-- `CollabUpdateEvent::encode`: `to_proto().encode_to_vec()`. -/
def CollabUpdateEvent.encode (e : CollabUpdateEvent) : Bytes :=
  protoEncode e.toProto

/-- Modelled from the bincode crate (v1, default options): deserialize a
`CollabUpdateEvent` — a little-endian u32 variant index (only 0 is valid),
then the `Vec<u8>`: a little-endian u64 length and that many bytes.
Trailing bytes are allowed by `bincode::deserialize`. -/
def bincodeDeserializeUpdateEvent (bs : Bytes) : Except String CollabUpdateEvent :=
  match bs with
  | t0 :: t1 :: t2 :: t3 :: rest =>
    let tag := t0 + t1 * 256 + t2 * 65536 + t3 * 16777216
    if tag = 0 then
      match rest with
      | l0 :: l1 :: l2 :: l3 :: l4 :: l5 :: l6 :: l7 :: rest2 =>
        let len := l0 + l1 * 256 + l2 * 65536 + l3 * 16777216 +
          l4 * 4294967296 + l5 * 1099511627776 +
          l6 * 281474976710656 + l7 * 72057594037927936
        if len ≤ rest2.length then .ok (.updateV1 (rest2.take len))
        else .error "io error: failed to fill whole buffer"
      | _ => .error "io error: failed to fill whole buffer"
    else .error ("invalid value: integer \x60" ++ natRepr tag ++
      "\x60, expected variant index 0 <= i < 1")
  | _ => .error "io error: failed to fill whole buffer"

/-- `CollabUpdateEvent::decode`: try the protobuf format first; if prost
fails, fall back to bincode; if that also fails, return the bincode error. -/
def CollabUpdateEvent.decode (data : Bytes) : Except StreamError CollabUpdateEvent :=
  match protoDecode data with
  | some proto => CollabUpdateEvent.fromProto proto
  | none =>
    match bincodeDeserializeUpdateEvent data with
    | .ok event => .ok event
    | .error e => .error (.binCodeSerde e)

/-! ### Statement-forming predicates -/

/-- Written from the amended claim C4: among the first two `|`-separated
tokens, one carries the `uid:` marker (and, after stripping the possibly
repeated marker, parses as a signed 64-bit integer) and the other carries
the `device_id:` marker; tokens beyond the second are not inspected. -/
def clientShapeTokensB : List (List Char) → Bool
  | a :: b :: _ =>
    (uidTag.isPrefixOf a && devTag.isPrefixOf b &&
      (parseI64 (trimAll uidTag (a.length + 1) a)).toOption.isSome) ||
    (uidTag.isPrefixOf b && devTag.isPrefixOf a &&
      (parseI64 (trimAll uidTag (b.length + 1) b)).toOption.isSome)
  | _ => false

/-- `clientShapeTokensB` on the `|`-token list of a string. -/
def clientShapeB (s : String) : Bool := clientShapeTokensB (splitChar '|' s.data)

/-- The per-pair decode relation for grouped replies: the pair is a
2-element bulk whose key decodes to `p.1` and whose entries decode
pointwise to `p.2`. -/
def pairDecodes (v : RValue) (p : String × List StreamMessage) : Prop :=
  ∃ k0 entries, v = .bulk [k0, .bulk entries] ∧
    redisStringFromRedisValue k0 = .ok p.1 ∧
    List.Forall₂ (fun e msg => streamMessageFromRedisValue e = .ok msg) entries p.2

/-- All entries of the pairs carrying key `k`, in pair order. -/
def keyEntries (k : String) (ps : List (String × List StreamMessage)) : List StreamMessage :=
  ((ps.filter (fun p => p.1 == k)).map Prod.snd).flatten

/-- Push a whole message list under one key, in order. -/
def pushAll (k : String) (msgs : List StreamMessage) (m : BMap) : BMap :=
  msgs.foldl (fun acc msg => mapInsertPush k msg acc) m

/-- The flags field is absent or its byte value cannot be read. -/
def flagsDefaulted (fields : FieldMap) : Prop :=
  fieldGet fields "flags" = none ∨
  ∃ fv, fieldGet fields "flags" = some fv ∧ (u8FromRedisValueE fv).toOption = none

/-- The data field is present and converts to bytes. -/
def dataOkProp (fields : FieldMap) : Prop :=
  ∃ dv bs, fieldGet fields "data" = some dv ∧ vecU8FromRedisValue dv = .ok bs

end CollabStream

namespace CollabStream

/-! ## Theorems -/

/-- A list cannot start with both the `uid:` and the `device_id:` marker. -/
theorem uid_dev_tags_exclusive (x : List Char) :
    ¬(uidTag.isPrefixOf x = true ∧ devTag.isPrefixOf x = true) := by
  rintro ⟨hu, hd⟩
  rw [List.isPrefixOf_iff_prefix] at hu hd
  obtain ⟨t1, h1⟩ := hu
  obtain ⟨t2, h2⟩ := hd
  rw [← h1] at h2
  simp [uidTag, devTag] at h2

/-- C3: the sender-identity decoder maps `""` to `Empty` (anonymous),
`"server"` to `Server`, `"uid:123|device_id:dev-1"` to
`Client{uid: 123, device_id: "dev-1"}`, and the reversed-token-order string
`"device_id:dev-1|uid:123"` to that same client value. -/
theorem claim_c3 :
    collabOriginFromStr "" = .ok .empty ∧
    collabOriginFromStr "server" = .ok .server ∧
    collabOriginFromStr "uid:123|device_id:dev-1" = .ok (.client ⟨123, "dev-1"⟩) ∧
    collabOriginFromStr "device_id:dev-1|uid:123" = .ok (.client ⟨123, "dev-1"⟩) := by
  refine ⟨by decide, by decide, by decide, by decide⟩

/-- C4 counterexample: a string with three `|`-separated tokens is *not*
rejected — the decoder only examines the first two tokens, so
`"uid:123|device_id:dev-1|extra"` decodes to a client instead of failing. -/
theorem claim_c4_counterexample :
    collabOriginFromStr "uid:123|device_id:dev-1|extra" = .ok (.client ⟨123, "dev-1"⟩) := by
  decide

/-- C4 amended: for every input string other than `""` and `"server"`, the
decoder returns a client exactly when the first two `|`-separated tokens
have the required `uid:` / `device_id:` shape (in either order, the uid
suffix parsing as an i64 after stripping the possibly repeated marker), and
otherwise returns a parse error; tokens beyond the second are ignored. -/
theorem claim_c4 (s : String) (h1 : s ≠ "") (h2 : s ≠ "server") :
    ((∃ c, collabOriginFromStr s = .ok (.client c)) ↔ clientShapeB s = true) ∧
    (clientShapeB s = false →
      ∃ msg, collabOriginFromStr s = .error (internalErr msg)) := by
  unfold collabOriginFromStr clientShapeB
  rw [if_neg h1, if_neg h2]
  cases hsp : splitChar '|' s.data with
  | nil => exact ⟨by simp [originFromTokens, clientShapeTokensB], fun _ => ⟨_, rfl⟩⟩
  | cons a ts =>
    cases ts with
    | nil => exact ⟨by simp [originFromTokens, clientShapeTokensB], fun _ => ⟨_, rfl⟩⟩
    | cons b rest =>
      simp only [originFromTokens, clientShapeTokensB]
      cases g1 : (uidTag.isPrefixOf a && devTag.isPrefixOf b) with
      | true =>
        unfold mkClient
        cases hp : parseI64 (trimAll uidTag (a.length + 1) a) with
        | ok v => simp [hp, Except.toOption]
        | error e =>
          have g1' : uidTag.isPrefixOf a = true ∧ devTag.isPrefixOf b = true := by
            rw [Bool.and_eq_true] at g1; exact g1
          have hb : uidTag.isPrefixOf b = false := by
            cases hub : uidTag.isPrefixOf b with
            | false => rfl
            | true => exact absurd ⟨hub, g1'.2⟩ (uid_dev_tags_exclusive b)
          exact ⟨by simp [hp, hb, Except.toOption],
            fun _ => ⟨"failed to parse uid: " ++ e, by simp [hp]⟩⟩
      | false =>
        cases g2 : (uidTag.isPrefixOf b && devTag.isPrefixOf a) with
        | true =>
          unfold mkClient
          cases hp : parseI64 (trimAll uidTag (b.length + 1) b) with
          | ok v => simp [hp, Except.toOption]
          | error e =>
            exact ⟨by simp [hp, Except.toOption],
              fun _ => ⟨"failed to parse uid: " ++ e, by simp [hp]⟩⟩
        | false =>
          exact ⟨by simp, fun _ => ⟨_, rfl⟩⟩

/-! ### Decimal formatting round-trip lemmas (for C8) -/

/-- `natToCharsAux` does not depend on the fuel once it is sufficient. -/
theorem natToCharsAux_fuel : ∀ f1 f2 n, n < f1 → n < f2 →
    natToCharsAux f1 n = natToCharsAux f2 n := by
  intro f1
  induction f1 with
  | zero => intro f2 n h1; omega
  | succ k ih =>
    intro f2 n h1 h2
    cases f2 with
    | zero => omega
    | succ m =>
      unfold natToCharsAux
      by_cases hn : n < 10
      · simp [hn]
      · have hk : n / 10 < k := by omega
        have hm : n / 10 < m := by omega
        simp only [hn, if_false]
        rw [ih m (n / 10) hk hm]

/-- Every digit character of `digitToChar` on `d < 10` has the expected code. -/
theorem digitToChar_toNat : ∀ d, d < 10 → (digitToChar d).toNat = 48 + d := by decide

/-- `charDigit` inverts `digitToChar` on single digits. -/
theorem charDigit_digitToChar : ∀ d, d < 10 → charDigit (digitToChar d) = some d := by decide

/-- All characters produced by `natToCharsAux` are decimal digits. -/
theorem natToCharsAux_digits : ∀ fuel n, n < fuel →
    ∀ c ∈ natToCharsAux fuel n, 48 ≤ c.toNat ∧ c.toNat ≤ 57 := by
  intro fuel
  induction fuel with
  | zero => intro n h; omega
  | succ k ih =>
    intro n h c hc
    unfold natToCharsAux at hc
    by_cases hn : n < 10
    · simp [hn] at hc
      subst hc
      have := digitToChar_toNat n hn
      omega
    · simp only [hn, if_false, List.mem_append, List.mem_singleton] at hc
      rcases hc with hc | hc
      · exact ih (n / 10) (by omega) c hc
      · subst hc
        have h10 : n % 10 < 10 := Nat.mod_lt _ (by omega)
        have := digitToChar_toNat (n % 10) h10
        omega

/-- `natToCharsAux` is nonempty on sufficient fuel. -/
theorem natToCharsAux_ne_nil : ∀ fuel n, n < fuel → natToCharsAux fuel n ≠ [] := by
  intro fuel n h
  cases fuel with
  | zero => omega
  | succ k =>
    unfold natToCharsAux
    by_cases hn : n < 10
    · simp [hn]
    · simp [hn]

/-- `parsePosLoop` over an append runs the two halves in sequence. -/
theorem parsePosLoop_append (maxE : Nat) : ∀ xs ys acc,
    parsePosLoop maxE acc (xs ++ ys) =
      match parsePosLoop maxE acc xs with
      | .ok a2 => parsePosLoop maxE a2 ys
      | .error e => .error e := by
  intro xs
  induction xs with
  | nil => intro ys acc; rfl
  | cons c cs ih =>
    intro ys acc
    simp only [List.cons_append, parsePosLoop]
    cases hcd : charDigit c with
    | none => simp
    | some d =>
      simp only
      by_cases hb : acc * 10 + d < maxE
      · simp only [hb, if_true]
        exact ih ys (acc * 10 + d)
      · simp [hb]

/-- `parsePosLoop` evaluates the decimal digit list of `n` positionally. -/
theorem parsePosLoop_natToCharsAux : ∀ fuel n, n < fuel → ∀ acc maxE,
    acc * 10 ^ (natToCharsAux fuel n).length + n < maxE →
    parsePosLoop maxE acc (natToCharsAux fuel n) =
      .ok (acc * 10 ^ (natToCharsAux fuel n).length + n) := by
  intro fuel
  induction fuel with
  | zero => intro n h; omega
  | succ k ih =>
    intro n h acc maxE hbound
    by_cases hn : n < 10
    · have hL : natToCharsAux (k + 1) n = [digitToChar n] := by
        unfold natToCharsAux; simp [hn]
      rw [hL] at hbound ⊢
      simp only [List.length_singleton, pow_one] at hbound ⊢
      unfold parsePosLoop
      rw [charDigit_digitToChar n hn]
      simp only [hbound, if_true]
      rfl
    · have hL : natToCharsAux (k + 1) n =
          natToCharsAux k (n / 10) ++ [digitToChar (n % 10)] := by
        rw [natToCharsAux.eq_def]
        simp [hn]
      rw [hL] at hbound ⊢
      have hdiv : n / 10 < k := by omega
      set L1 := natToCharsAux k (n / 10) with hL1
      have hlen : (L1 ++ [digitToChar (n % 10)]).length = L1.length + 1 := by simp
      rw [hlen] at hbound ⊢
      have hrw : acc * 10 ^ (L1.length + 1) = acc * 10 ^ L1.length * 10 := by
        rw [pow_succ]; ring
      rw [hrw] at hbound ⊢
      have hbound1 : acc * 10 ^ L1.length + n / 10 < maxE := by
        generalize acc * 10 ^ L1.length = B at hbound
        omega
      rw [parsePosLoop_append]
      rw [ih (n / 10) hdiv acc maxE hbound1]
      have hml : n % 10 < 10 := by omega
      have hval : (acc * 10 ^ L1.length + n / 10) * 10 + n % 10 =
          acc * 10 ^ L1.length * 10 + n := by
        generalize acc * 10 ^ L1.length = B
        omega
      have hfin : (acc * 10 ^ L1.length + n / 10) * 10 + n % 10 < maxE := by
        rw [hval]; exact hbound
      simp [parsePosLoop, charDigit_digitToChar (n % 10) hml, hval, hfin, hbound]

/-- `parseUnsigned` parses the decimal rendering of `n < maxE` back to `n`. -/
theorem parseUnsigned_natToChars (n maxE : Nat) (h : n < maxE) :
    parseUnsigned maxE (natToChars n) = .ok n := by
  have hne := natToCharsAux_ne_nil (n + 1) n (by omega)
  have hdigits := natToCharsAux_digits (n + 1) n (by omega)
  unfold natToChars at hne hdigits ⊢
  cases hL : natToCharsAux (n + 1) n with
  | nil => exact absurd hL hne
  | cons c cs =>
    have hc : 48 ≤ c.toNat ∧ c.toNat ≤ 57 := by
      apply hdigits; rw [hL]; exact List.mem_cons_self c cs
    have hplus : ¬(c = '+') := by
      intro hEq; subst hEq; simp [Char.toNat, UInt32.size] at hc
    unfold parseUnsigned
    simp only [hplus, if_false]
    have := parsePosLoop_natToCharsAux (n + 1) n (by omega) 0 maxE
      (by rw [hL]; simpa using h)
    rw [hL] at this
    have := this
    simpa using this

/-- The separator does not occur among decimal digit characters. -/
theorem hyphen_not_mem_natToChars (n : Nat) : '-' ∉ natToChars n := by
  intro hmem
  have := natToCharsAux_digits (n + 1) n (by omega) '-' hmem
  simp [Char.toNat, UInt32.size] at this

/-- `splitFirstAux` finds the first separator after the accumulated front. -/
theorem splitFirstAux_append (sep : Char) : ∀ xs acc ys, sep ∉ xs →
    splitFirstAux sep acc (xs ++ sep :: ys) = some (acc.reverse ++ xs, ys) := by
  intro xs
  induction xs with
  | nil =>
    intro acc ys _
    unfold splitFirstAux
    simp
  | cons c cs ih =>
    intro acc ys hmem
    have hc : ¬(c = sep) := fun hEq => hmem (hEq ▸ List.mem_cons_self c cs)
    simp only [List.cons_append]
    unfold splitFirstAux
    simp only [hc, if_false]
    rw [ih (c :: acc) ys (fun hm => hmem (List.mem_cons_of_mem c hm))]
    simp

/-- C8: formatting an ordering key as `"<timestamp_ms>-<sequence_number>"`
and parsing it back yields the original key, for every u64 timestamp and u16
sequence number; a string with no `-` fails with `InvalidFormat`, and
`"12-abc"` fails with the numeric-parse error. -/
theorem claim_c8 :
    (∀ t q, t < 2 ^ 64 → q < 2 ^ 16 →
      messageIdFromStr (messageIdToString ⟨t, q⟩) = .ok ⟨t, q⟩) ∧
    messageIdFromStr "bad" = .error .invalidFormat ∧
    messageIdFromStr "12-abc" = .error (.numericParse "invalid digit found in string") := by
  refine ⟨?_, by decide, by decide⟩
  intro t q ht hq
  show messageIdFromChars (messageIdToChars ⟨t, q⟩) = .ok ⟨t, q⟩
  unfold messageIdToChars messageIdFromChars splitFirst
  rw [splitFirstAux_append '-' (natToChars t) [] (natToChars q)
    (hyphen_not_mem_natToChars t)]
  have h1 : parseUnsigned (2 ^ 64) (natToChars t) = .ok t :=
    parseUnsigned_natToChars t (2 ^ 64) ht
  have h2 : parseUnsigned (2 ^ 16) (natToChars q) = .ok q :=
    parseUnsigned_natToChars q (2 ^ 16) hq
  simp at h1 h2
  simp [h1, h2]

/-- C8 witness: the round-trip at the documented example id `1631020452097-0`. -/
theorem claim_c8_witness :
    1631020452097 < 2 ^ 64 ∧ 0 < 2 ^ 16 ∧
    messageIdFromStr (messageIdToString ⟨1631020452097, 0⟩) = .ok ⟨1631020452097, 0⟩ :=
  ⟨by decide, by decide, claim_c8.1 1631020452097 0 (by decide) (by decide)⟩

/-! ### Grouped-reply lemmas (for C5 and C10) -/

/-- Lookup after `mapInsertPush`: the pushed message lands at the end of its
key's sequence and no other key changes. -/
theorem bmapGet_insertPush (k k2 : String) (v : StreamMessage) : ∀ m : BMap,
    bmapGet k2 (mapInsertPush k v m) =
      if k2 = k then bmapGet k2 m ++ [v] else bmapGet k2 m := by
  intro m
  induction m with
  | nil =>
    by_cases h : k2 = k
    · subst h; simp [mapInsertPush, bmapGet]
    · simp [mapInsertPush, bmapGet, h, Ne.symm h]
  | cons p rest ih =>
    obtain ⟨kp, vs⟩ := p
    by_cases h1 : kp = k
    · subst h1
      simp only [mapInsertPush, if_pos rfl]
      by_cases h2 : kp = k2
      · subst h2; simp [bmapGet]
      · simp [bmapGet, h2, Ne.symm h2]
    · simp only [mapInsertPush, if_neg h1]
      by_cases h2 : kp = k2
      · subst h2
        simp [bmapGet, h1, Ne.symm h1]
      · simp [bmapGet, h2, ih]

/-- Lookup after `pushAll`: the whole list is appended under its key. -/
theorem bmapGet_pushAll (k k2 : String) : ∀ (msgs : List StreamMessage) (m : BMap),
    bmapGet k2 (pushAll k msgs m) =
      if k2 = k then bmapGet k2 m ++ msgs else bmapGet k2 m := by
  intro msgs
  induction msgs with
  | nil => intro m; simp [pushAll]
  | cons msg msgs ih =>
    intro m
    show bmapGet k2 (pushAll k msgs (mapInsertPush k msg m)) = _
    rw [ih]
    rw [bmapGet_insertPush]
    by_cases h : k2 = k
    · simp [h]
    · simp [h]

/-- The entry loop decodes each entry and pushes it under the key. -/
theorem decodeEntriesInto_ok (k : String) :
    ∀ (entries : List RValue) (msgs : List StreamMessage),
    List.Forall₂ (fun e msg => streamMessageFromRedisValue e = .ok msg) entries msgs →
    ∀ m, decodeEntriesInto k entries m = .ok (pushAll k msgs m) := by
  intro entries msgs h
  induction h with
  | nil => intro m; simp [decodeEntriesInto, pushAll]
  | cons he htail ih =>
    intro m
    simp only [decodeEntriesInto, he]
    exact ih (mapInsertPush k _ m)

/-- The pair loop decodes every pair, appending each pair's entries under
its key in pair order. -/
theorem decodePairsInto_ok :
    ∀ (vs : List RValue) (ps : List (String × List StreamMessage)),
    List.Forall₂ pairDecodes vs ps →
    ∀ m, ∃ m2, decodePairsInto vs m = .ok m2 ∧
      ∀ k, bmapGet k m2 = bmapGet k m ++ keyEntries k ps := by
  intro vs ps h
  induction h with
  | nil => intro m; exact ⟨m, rfl, fun k => by simp [keyEntries]⟩
  | @cons v p vtail ptail hpair htail ih =>
    intro m
    obtain ⟨k0, entries, hv, hk, hmsgs⟩ := hpair
    subst hv
    obtain ⟨m2, heq, hget⟩ := ih (pushAll p.1 p.2 m)
    refine ⟨m2, ?_, ?_⟩
    · simp only [decodePairsInto, bulkFromRedisValue, hk,
        decodeEntriesInto_ok p.1 entries p.2 hmsgs m]
      exact heq
    · intro k
      rw [hget k, bmapGet_pushAll]
      by_cases hkp : k = p.1
      · have hb : (p.1 == k) = true := by simp [hkp]
        simp only [keyEntries, List.filter_cons, hb, if_pos, List.map_cons,
          List.flatten_cons, hkp, if_true]
        rw [List.append_assoc]
        simp [keyEntries]
      · have hb : (p.1 == k) = false := by
          simp only [beq_eq_false_iff_ne, ne_eq]
          exact fun hh => hkp hh.symm
        simp only [keyEntries, List.filter_cons, hb, hkp, if_false]
        simp [keyEntries]

/-- C5: for a well-formed grouped-by-key reply, decoding succeeds and maps
each routing key to the concatenation, in reply order, of the decoded
entries of the pairs carrying that key; a nil outer reply yields the empty
mapping, not an error. -/
theorem claim_c5 (outer : List RValue) (ps : List (String × List StreamMessage))
    (k : String) (h : List.Forall₂ pairDecodes outer ps) :
    (∃ m, streamMessageByStreamKeyFromRedisValue (.bulk outer) = .ok m ∧
      bmapGet k m = keyEntries k ps) ∧
    streamMessageByStreamKeyFromRedisValue .nil = .ok [] := by
  obtain ⟨m2, heq, hget⟩ := decodePairsInto_ok outer ps h []
  refine ⟨⟨m2, ?_, ?_⟩, rfl⟩
  · simp only [streamMessageByStreamKeyFromRedisValue, bulkFromRedisValue]
    exact heq
  · simpa [bmapGet] using hget k

/-- C5 witness: one pair, key `"k1"`, one entry with id `1-0` and data `[7]`. -/
theorem claim_c5_witness :
    ∃ m, streamMessageByStreamKeyFromRedisValue
        (.bulk [.bulk [.data [107, 49],
          .bulk [.bulk [.data [49, 45, 48],
            .bulk [.data [100, 97, 116, 97], .data [7]]]]]]) = .ok m ∧
      bmapGet "k1" m = [⟨[7], ⟨1, 0⟩⟩] := by
  have h := (claim_c5
    [.bulk [.data [107, 49],
      .bulk [.bulk [.data [49, 45, 48], .bulk [.data [100, 97, 116, 97], .data [7]]]]]]
    [("k1", [⟨[7], ⟨1, 0⟩⟩])] "k1"
    (.cons ⟨.data [107, 49],
      [.bulk [.data [49, 45, 48], .bulk [.data [100, 97, 116, 97], .data [7]]]],
      rfl, by decide, .cons (by decide) .nil⟩ .nil)).1
  obtain ⟨m, hm, hget⟩ := h
  exact ⟨m, hm, by rw [hget]; decide⟩

/-- C10: a routing key appearing in two pairs of a grouped reply is not an
error and is not overwritten — the second pair's entries are appended after
the first pair's entries under that single key. -/
theorem claim_c10 (k0 : RValue) (key : String) (e1 e2 : List RValue)
    (ms1 ms2 : List StreamMessage)
    (hk : redisStringFromRedisValue k0 = .ok key)
    (h1 : List.Forall₂ (fun e msg => streamMessageFromRedisValue e = .ok msg) e1 ms1)
    (h2 : List.Forall₂ (fun e msg => streamMessageFromRedisValue e = .ok msg) e2 ms2) :
    ∃ m, streamMessageByStreamKeyFromRedisValue
        (.bulk [.bulk [k0, .bulk e1], .bulk [k0, .bulk e2]]) = .ok m ∧
      bmapGet key m = ms1 ++ ms2 := by
  have hp : List.Forall₂ pairDecodes [.bulk [k0, .bulk e1], .bulk [k0, .bulk e2]]
      [(key, ms1), (key, ms2)] :=
    .cons ⟨k0, e1, rfl, hk, h1⟩ (.cons ⟨k0, e2, rfl, hk, h2⟩ .nil)
  obtain ⟨m2, heq, hget⟩ := decodePairsInto_ok _ _ hp []
  refine ⟨m2, ?_, ?_⟩
  · simp only [streamMessageByStreamKeyFromRedisValue, bulkFromRedisValue]
    exact heq
  · have := hget key
    simp only [keyEntries, List.filter_cons, beq_self_eq_true, if_true,
      List.filter_nil, List.map_cons, List.map_nil, List.flatten_cons,
      List.flatten_nil, bmapGet, List.nil_append, List.append_nil] at this
    simpa using this

/-- C10 witness: two pairs with the same key `"k"` and one entry each. -/
theorem claim_c10_witness :
    ∃ m, streamMessageByStreamKeyFromRedisValue
        (.bulk [.bulk [.data [107],
            .bulk [.bulk [.data [49, 45, 48], .bulk [.data [100, 97, 116, 97], .data [7]]]]],
          .bulk [.data [107],
            .bulk [.bulk [.data [50, 45, 48], .bulk [.data [100, 97, 116, 97], .data [8]]]]]]) =
      .ok m ∧
      bmapGet "k" m = [⟨[7], ⟨1, 0⟩⟩] ++ [⟨[8], ⟨2, 0⟩⟩] :=
  claim_c10 (.data [107]) "k"
    [.bulk [.data [49, 45, 48], .bulk [.data [100, 97, 116, 97], .data [7]]]]
    [.bulk [.data [50, 45, 48], .bulk [.data [100, 97, 116, 97], .data [8]]]]
    [⟨[7], ⟨1, 0⟩⟩] [⟨[8], ⟨2, 0⟩⟩]
    (by decide) (.cons (by decide) .nil) (.cons (by decide) .nil)

/-- C6: decoding a raw entry whose field name is `"wrong"` fails with the
field-name-mismatch error (the spec's `UnexpectedValue` category: description
`Invalid field`, carrying the expected and found names), decoding an entry
with 3 fields fails with the `Invalid length` `TypeError`, and a 2-field
entry whose name decodes to anything other than `"data"` never decodes
successfully. -/
theorem claim_c6 :
    streamMessageFromRedisValue
      (.bulk [.data [49, 45, 48],
        .bulk [.data [119, 114, 111, 110, 103], .data [7]]]) =
      .error ⟨.typeError, "Invalid field",
        some "Expected \x27data\x27, found \x27wrong\x27"⟩ ∧
    streamMessageFromRedisValue
      (.bulk [.data [49, 45, 48],
        .bulk [.data [100, 97, 116, 97], .data [7], .data [8]]]) =
      .error ⟨.typeError, "Invalid length",
        some "Expected length of 2 for the bulk value, but got 3"⟩ ∧
    (∀ idv fnv fvv name, stringFromRedisValue fnv = .ok name → name ≠ "data" →
      ∃ e, streamMessageFromRedisValue (.bulk [idv, .bulk [fnv, fvv]]) = .error e) := by
  refine ⟨by decide, by decide, ?_⟩
  intro idv fnv fvv name hname hne
  cases hid : messageIdFromRedisValue idv with
  | error e =>
    exact ⟨e, by simp [streamMessageFromRedisValue, bulkFromRedisValue, hid]⟩
  | ok mid =>
    refine ⟨⟨.typeError, "Invalid field",
      some ("Expected \x27data\x27, found \x27" ++ name ++ "\x27")⟩, ?_⟩
    simp [streamMessageFromRedisValue, bulkFromRedisValue, hid, verifyField, hname, hne]

/-- C6 witness: the general clause at the concrete field name `"wrong"`. -/
theorem claim_c6_witness :
    stringFromRedisValue (.data [119, 114, 111, 110, 103]) = .ok "wrong" ∧
    ("wrong" : String) ≠ "data" ∧
    ∃ e, streamMessageFromRedisValue
      (.bulk [.data [49, 45, 48],
        .bulk [.data [119, 114, 111, 110, 103], .data [7]]]) = .error e :=
  ⟨by decide, by decide,
    claim_c6.2.2 (.data [49, 45, 48]) (.data [119, 114, 111, 110, 103]) (.data [7])
      "wrong" (by decide) (by decide)⟩

/-- C7: constructing an `UpdatePayload` from a field mapping — an absent
`sender` yields the anonymous sender; an absent or unreadable `flags` value
yields flags `0` without failing the decode; an absent `data` field fails
the whole decode with the missing-field error. -/
theorem claim_c7 (fields : FieldMap) :
    (∀ r, collabStreamUpdateTryFrom fields = .ok r →
      (fieldGet fields "sender" = none → r.sender = .empty) ∧
      (flagsDefaulted fields → r.flags = ⟨0⟩)) ∧
    ((∃ o, senderFromFields fields = .ok o) → dataOkProp fields →
      ∃ r, collabStreamUpdateTryFrom fields = .ok r) ∧
    ((∃ o, senderFromFields fields = .ok o) → fieldGet fields "data" = none →
      collabStreamUpdateTryFrom fields =
        .error (.redisErr (internalErr "expecting field \x60data\x60"))) := by
  refine ⟨?_, ?_, ?_⟩
  · intro r hr
    cases hs : senderFromFields fields with
    | error e => simp [collabStreamUpdateTryFrom, hs] at hr
    | ok o =>
      cases hd : fieldGet fields "data" with
      | none => simp [collabStreamUpdateTryFrom, hs, hd] at hr
      | some dv =>
        cases hv : vecU8FromRedisValue dv with
        | error e => simp [collabStreamUpdateTryFrom, hs, hd, hv] at hr
        | ok bs =>
          simp only [collabStreamUpdateTryFrom, hs, hd, hv, Except.ok.injEq] at hr
          subst hr
          constructor
          · intro hsnone
            have hempty : senderFromFields fields = .ok .empty := by
              unfold senderFromFields; rw [hsnone]
            rw [hs] at hempty
            simp only [Except.ok.injEq] at hempty
            simp [hempty]
          · intro hf
            rcases hf with hf | ⟨fv, hfv, hnone⟩
            · simp [flagsFromFields, hf]
            · simp [flagsFromFields, hfv, hnone]
  · rintro ⟨o, hs⟩ ⟨dv, bs, hd, hv⟩
    exact ⟨⟨bs, o, flagsFromFields fields⟩, by simp [collabStreamUpdateTryFrom, hs, hd, hv]⟩
  · rintro ⟨o, hs⟩ hd
    simp [collabStreamUpdateTryFrom, hs, hd]

/-- C7 witness: data present, sender absent, flags present but unreadable
(a bulk value is not a byte) — the decode succeeds with flags `0` and the
anonymous sender. -/
theorem claim_c7_witness :
    flagsDefaulted [("data", RValue.data [1, 2]), ("flags", RValue.bulk [])] ∧
    dataOkProp [("data", RValue.data [1, 2]), ("flags", RValue.bulk [])] ∧
    ∃ r, collabStreamUpdateTryFrom
        [("data", RValue.data [1, 2]), ("flags", RValue.bulk [])] = .ok r ∧
      r.flags = ⟨0⟩ ∧ r.sender = .empty := by
  refine ⟨Or.inr ⟨RValue.bulk [], rfl, rfl⟩, ⟨RValue.data [1, 2], [1, 2], rfl, rfl⟩, ?_⟩
  obtain ⟨r, hr⟩ := (claim_c7 [("data", RValue.data [1, 2]), ("flags", RValue.bulk [])]).2.1
    ⟨.empty, rfl⟩ ⟨RValue.data [1, 2], [1, 2], rfl, rfl⟩
  obtain ⟨hsend, hflag⟩ := (claim_c7 [("data", RValue.data [1, 2]), ("flags", RValue.bulk [])]).1 r hr
  exact ⟨r, hr, hflag (Or.inr ⟨RValue.bulk [], rfl, rfl⟩), hsend rfl⟩

/-! ### Varint and event-codec lemmas (for C1, C2, C9) -/

/-- `encodeVarintAux` does not depend on the fuel once it is sufficient. -/
theorem encodeVarintAux_fuel : ∀ f1 f2 n, n < f1 → n < f2 →
    encodeVarintAux f1 n = encodeVarintAux f2 n := by
  intro f1
  induction f1 with
  | zero => intro f2 n h1; omega
  | succ k ih =>
    intro f2 n h1 h2
    cases f2 with
    | zero => omega
    | succ m =>
      unfold encodeVarintAux
      by_cases hn : n < 128
      · simp [hn]
      · simp only [hn, if_false]
        rw [ih m (n / 128) (by omega) (by omega)]

/-- The one-step unfolding of `encodeVarint`. -/
theorem encodeVarint_unfold (n : Nat) : encodeVarint n =
    if n < 128 then [n] else (n % 128 + 128) :: encodeVarint (n / 128) := by
  show encodeVarintAux (n + 1) n = _
  rw [encodeVarintAux.eq_def]
  by_cases hn : n < 128
  · simp [hn]
  · simp only [hn, if_false]
    rw [encodeVarintAux_fuel n (n / 128 + 1) (n / 128) (by omega) (by omega)]
    rfl

/-- A value below `128^k` encodes in at most `k` varint bytes. -/
theorem encodeVarint_length : ∀ k n, 0 < k → n < 128 ^ k →
    (encodeVarint n).length ≤ k := by
  intro k
  induction k with
  | zero => intro n h; omega
  | succ k ih =>
    intro n _ hn
    rw [encodeVarint_unfold]
    by_cases h : n < 128
    · simp [h]
    · simp only [h, if_false, List.length_cons]
      have hk : 0 < k := by
        rcases Nat.eq_zero_or_pos k with hk0 | hk0
        · subst hk0; simp at hn; omega
        · exact hk0
      have hdiv : n / 128 < 128 ^ k := by
        rw [Nat.div_lt_iff_lt_mul (by omega)]
        calc n < 128 ^ (k + 1) := hn
          _ = 128 ^ k * 128 := by rw [pow_succ]
      have := ih (n / 128) hk hdiv
      omega

/-- Varint decoding inverts varint encoding, leaving the rest untouched. -/
theorem decodeVarintAux_encode : ∀ n fuel acc shift rest,
    (encodeVarint n).length ≤ fuel →
    decodeVarintAux fuel acc shift (encodeVarint n ++ rest) =
      some (acc + n * 2 ^ shift, rest) := by
  intro n
  induction n using Nat.strong_induction_on with
  | _ n ih =>
    intro fuel acc shift rest hlen
    by_cases h : n < 128
    · rw [encodeVarint_unfold] at hlen ⊢
      simp only [h, if_true] at hlen ⊢
      cases fuel with
      | zero => simp at hlen
      | succ f =>
        show decodeVarintAux (f + 1) acc shift (n :: rest) = _
        unfold decodeVarintAux
        have hm : n % 128 = n := Nat.mod_eq_of_lt h
        simp [h, hm]
    · rw [encodeVarint_unfold] at hlen ⊢
      simp only [h, if_false, List.length_cons] at hlen ⊢
      cases fuel with
      | zero => omega
      | succ f =>
        show decodeVarintAux (f + 1) acc shift ((n % 128 + 128) :: (encodeVarint (n / 128) ++ rest)) = _
        unfold decodeVarintAux
        have hb : ¬(n % 128 + 128 < 128) := by omega
        have hbm : (n % 128 + 128) % 128 = n % 128 := by omega
        simp only [hb, if_false, hbm]
        rw [ih (n / 128) (Nat.div_lt_self (by omega) (by omega)) f _ _ rest (by omega)]
        have hval : acc + n % 128 * 2 ^ shift + n / 128 * 2 ^ (shift + 7) =
            acc + n * 2 ^ shift := by
          have h2 : (2 : Nat) ^ (shift + 7) = 2 ^ shift * 128 := by
            rw [pow_add]; norm_num
          rw [h2]
          have hnd : n % 128 + 128 * (n / 128) = n := Nat.mod_add_div n 128
          calc acc + n % 128 * 2 ^ shift + n / 128 * (2 ^ shift * 128)
              = acc + (n % 128 + 128 * (n / 128)) * 2 ^ shift := by ring
            _ = acc + n * 2 ^ shift := by rw [hnd]
        rw [hval]

/-- `decodeVarint` inverts `encodeVarint` for values in u64 range. -/
theorem decodeVarint_encode (n : Nat) (rest : Bytes) (hn : n < 2 ^ 64) :
    decodeVarint (encodeVarint n ++ rest) = some (n, rest) := by
  have hlen : (encodeVarint n).length ≤ 10 :=
    encodeVarint_length 10 n (by norm_num) (by
      calc n < 2 ^ 64 := hn
        _ ≤ 128 ^ 10 := by norm_num)
  unfold decodeVarint
  rw [decodeVarintAux_encode n 10 0 0 rest hlen]
  have hn2 : n < 18446744073709551616 := by omega
  simp [hn2]

/-- The proto decode loop accepts the single length-delimited field-1 record
produced by the encoder. -/
theorem protoDecodeLoop_encoded (fuel : Nat) (st : ProtoCollabUpdateEvent)
    (u : Bytes) (hu : u.length < 2 ^ 64) :
    protoDecodeLoop (fuel + 2) st (10 :: (encodeVarint u.length ++ u)) =
      some ⟨some u⟩ := by
  unfold protoDecodeLoop
  have h10 : decodeVarint (10 :: (encodeVarint u.length ++ u)) =
      some (10, encodeVarint u.length ++ u) := by
    have h10e : encodeVarint 10 = [10] := rfl
    have hsplit : (10 : Nat) :: (encodeVarint u.length ++ u) =
        encodeVarint 10 ++ (encodeVarint u.length ++ u) := by rw [h10e]; rfl
    rw [hsplit]
    exact decodeVarint_encode 10 _ (by norm_num)
  rw [h10]
  norm_num
  rw [decodeVarint_encode u.length u hu]
  simp only [le_refl, if_true]
  rw [List.take_length, List.drop_length]
  rfl

/-- C2: encoding an update event always produces the primary protobuf form
(which decodes to the event's proto with the oneof set), and decoding the
encoding returns the original event. -/
theorem claim_c2 (u : Bytes) (h : u.length < 2 ^ 64) :
    protoDecode (CollabUpdateEvent.encode (.updateV1 u)) = some ⟨some u⟩ ∧
    CollabUpdateEvent.decode (CollabUpdateEvent.encode (.updateV1 u)) =
      .ok (.updateV1 u) := by
  have henc : CollabUpdateEvent.encode (.updateV1 u) =
      10 :: (encodeVarint u.length ++ u) := rfl
  have hdec : protoDecode (CollabUpdateEvent.encode (.updateV1 u)) = some ⟨some u⟩ := by
    rw [henc]
    show protoDecodeLoop ((10 :: (encodeVarint u.length ++ u)).length + 1) ⟨none⟩ _ = _
    have hlen : (10 :: (encodeVarint u.length ++ u)).length + 1 =
        (encodeVarint u.length ++ u).length + 2 := by simp
    rw [hlen]
    exact protoDecodeLoop_encoded _ ⟨none⟩ u h
  refine ⟨hdec, ?_⟩
  unfold CollabUpdateEvent.decode
  rw [hdec]
  rfl

/-- C2 witness: the spec's example payload `[1, 2, 3, 4, 5]`. -/
theorem claim_c2_witness :
    ([1, 2, 3, 4, 5] : Bytes).length < 2 ^ 64 ∧
    CollabUpdateEvent.decode (CollabUpdateEvent.encode (.updateV1 [1, 2, 3, 4, 5])) =
      .ok (.updateV1 [1, 2, 3, 4, 5]) :=
  ⟨by decide, (claim_c2 [1, 2, 3, 4, 5] (by decide)).2⟩

/-- C1: decode tries the protobuf schema first — when prost succeeds the
result comes from `from_proto` and bincode is never consulted; only when
prost fails is bincode attempted, and when both fail the returned error is
the bincode (legacy) error. -/
theorem claim_c1 (data : Bytes) :
    (∀ p, protoDecode data = some p →
      CollabUpdateEvent.decode data = CollabUpdateEvent.fromProto p) ∧
    (protoDecode data = none →
      ∀ e, bincodeDeserializeUpdateEvent data = .ok e →
        CollabUpdateEvent.decode data = .ok e) ∧
    (protoDecode data = none →
      ∀ err, bincodeDeserializeUpdateEvent data = .error err →
        CollabUpdateEvent.decode data = .error (.binCodeSerde err)) := by
  refine ⟨?_, ?_, ?_⟩
  · intro p hp
    simp [CollabUpdateEvent.decode, hp]
  · intro hp e he
    simp [CollabUpdateEvent.decode, hp, he]
  · intro hp err he
    simp [CollabUpdateEvent.decode, hp, he]

/-- C1 witness: `[1]` fails both decoders (prost: field number 0; bincode:
too short for the u32 tag), and the reported error is bincode's. -/
theorem claim_c1_witness :
    protoDecode [1] = none ∧
    bincodeDeserializeUpdateEvent [1] = .error "io error: failed to fill whole buffer" ∧
    CollabUpdateEvent.decode [1] =
      .error (.binCodeSerde "io error: failed to fill whole buffer") :=
  ⟨by decide, by decide, (claim_c1 [1]).2.2 (by decide) _ (by decide)⟩

/-- C9: when the buffer decodes under the protobuf schema but the oneof is
unset — as the empty buffer does — decode returns the `UnexpectedValue`
error regardless of what bincode would say: the legacy fallback is never
attempted. -/
theorem claim_c9 :
    (protoDecode [] = some ⟨none⟩ ∧
      CollabUpdateEvent.decode [] =
        .error (.unexpectedValue "update not set for CollabUpdateEvent proto")) ∧
    (∀ data, protoDecode data = some ⟨none⟩ →
      CollabUpdateEvent.decode data =
        .error (.unexpectedValue "update not set for CollabUpdateEvent proto")) := by
  refine ⟨⟨by decide, by decide⟩, ?_⟩
  intro data hp
  simp [CollabUpdateEvent.decode, hp, CollabUpdateEvent.fromProto]

/-- C9 witness: the general clause at the empty buffer. -/
theorem claim_c9_witness :
    protoDecode [] = some ⟨none⟩ ∧
    CollabUpdateEvent.decode [] =
      .error (.unexpectedValue "update not set for CollabUpdateEvent proto") :=
  ⟨by decide, claim_c9.2 [] (by decide)⟩

/-- C4 witness: `"foo"` has neither marker, so the decoder errors. -/
theorem claim_c4_witness :
    ("foo" : String) ≠ "" ∧ ("foo" : String) ≠ "server" ∧ clientShapeB "foo" = false ∧
    ∃ msg, collabOriginFromStr "foo" = .error (internalErr msg) :=
  ⟨by decide, by decide, by decide,
    (claim_c4 "foo" (by decide) (by decide)).2 (by decide)⟩

end CollabStream
